import Mathlib

/-!
Verification of the structured logging facade in `logger/logger.go`
(`package logger`, the latest revision: `logWrapper` over logrus).

Modelling choices, in one place:

* Go `map[string]interface{}` values (`logger.Fields`) are modelled as
  association lists `List (String × Value)` with Go map assignment
  (`m[k] = v`) as `Fields.setKey` and map lookup as `Fields.getKey`.
  Maps built by the code never carry duplicate keys.
* Go maps are reference types: storing a map in a struct stores a
  reference, and `make` allocates a fresh map.  To make aliasing
  observable (it decides whether `WithFields` copies its argument and
  whether the snapshot handed to logrus is fresh) maps live in an
  explicit `Heap`; a Go map variable is a `Nat` reference into it.
* logrus severity levels are the numeric constants of the logrus
  source: `PanicLevel = 0`, `FatalLevel = 1`, `ErrorLevel = 2`,
  `WarnLevel = 3`, `InfoLevel = 4`, `DebugLevel = 5`.  Larger numbers
  are more verbose, so "method severity strictly below the configured
  minimum severity" is exactly the source's guard `l.Level < methodLevel`.
* logrus itself (the Sink) is external: delegating to it is modelled as
  emitting a `SinkCall` record; the list of emitted records is the
  observable output.
* `runtime.Caller(skip)` is modelled by indexing a caller-supplied
  stack (a list of file-path/line frames); out-of-range lookup yields
  `("", 0, false)` exactly as the Go runtime does.
* `fmt.Sprintf` is the external formatting collaborator; it is modelled
  for the standard verbs `%v`, `%d`, `%s` and the escape `%%`, with
  Go's `(MISSING)`/`(EXTRA ...)`-style degradation represented by
  explicit markers.
-/

namespace LoggerGo

/-- A runtime value stored in a field map (`interface\x7b\x7d` in Go),
restricted to the payloads the claims exercise. -/
inductive Value where
  | str : String → Value
  | int : Int → Value
deriving Repr, DecidableEq

/-- Contents of one Go `map[string]interface\x7b\x7d` (`logger.Fields`):
an association list from keys to values. -/
abbrev Fields := List (String × Value)

/-- Go map lookup `m[k]`: the value at key `k`, if present. -/
def Fields.getKey (m : Fields) (k : String) : Option Value :=
  (List.find? (fun kv => kv.1 = k) m).map (fun kv => kv.2)

/-- Go map assignment `m[k] = v`: replace the binding of `k`, or add it. -/
def Fields.setKey (m : Fields) (k : String) (v : Value) : Fields :=
  if List.any m (fun kv => kv.1 = k) then
    List.map (fun kv => if kv.1 = k then (k, v) else kv) m
  else
    List.append m [(k, v)]

/-- The keys of a field map. -/
def Fields.keys (m : Fields) : List String := List.map Prod.fst m

/-- The heap of allocated Go maps.  A map reference is a `Nat`; `next` is
the next fresh reference (references below `next` are allocated). -/
structure Heap where
  cells : Nat → Fields
  next : Nat

/-- Dereference a map reference. -/
def Heap.get (h : Heap) (r : Nat) : Fields := h.cells r

/-- Overwrite the map stored at reference `r` (in-place mutation of the
Go map that `r` names). -/
def Heap.set (h : Heap) (r : Nat) (f : Fields) : Heap :=
  ⟨fun r' => if r' = r then f else h.cells r', h.next⟩

/-- `make(Fields)` / map literal: allocate a fresh map with contents `f`
and return the new heap together with the fresh reference. -/
def Heap.alloc (h : Heap) (f : Fields) : Heap × Nat :=
  (⟨fun r' => if r' = h.next then f else h.cells r', h.next + 1⟩, h.next)

/-- The empty heap, with no maps allocated. -/
def Heap.empty : Heap := ⟨fun _ => [], 0⟩

/-! logrus severity constants (from the logrus source; larger = more
verbose). -/

def PanicLevel : Nat := 0
def FatalLevel : Nat := 1
def ErrorLevel : Nat := 2
def WarnLevel : Nat := 3
def InfoLevel : Nat := 4
def DebugLevel : Nat := 5

/-- The facade struct `logWrapper`.  `Logger *logrus.Logger` is the
external Sink and carries no modelled state; `ContextMutex` serialises
access in Go and has no observable effect in this sequential model.
`Context Fields` is a Go map field, hence a reference. -/
structure logWrapper where
  Level : Nat
  Depth : Int
  ContextRef : Nat
deriving Repr, DecidableEq

/-- The level `switch` of `newLogger`: `level := logrus.InfoLevel` then
cases for `"debug"`, `"warning"`, `"info"`.  There is no `"error"` case
in the source. -/
def parseLevel (lvl : String) : Nat :=
  match lvl with
  | "debug" => DebugLevel
  | "warning" => WarnLevel
  | "info" => InfoLevel
  | _ => InfoLevel

/-- `newLogger(lvl, f)`: builds the wrapper with the parsed level,
`Depth: 2`, and `Context: f` — the caller's map reference is stored
directly, no copy is made. -/
def newLogger (lvl : String) (fRef : Nat) : logWrapper :=
  { Level := parseLevel lvl, Depth := 2, ContextRef := fRef }

/-- `New(level)`: allocates a fresh empty map
(`make(map[string]interface\x7b\x7d)`) and delegates to `newLogger`. -/
def New (level : String) (h : Heap) : Heap × logWrapper :=
  let a := h.alloc []
  (a.1, newLogger level a.2)

/-- `WithFields(level, fields)`: delegates to `newLogger`, passing the
caller's map reference through unchanged. -/
def WithFields (level : String) (fieldsRef : Nat) : logWrapper :=
  newLogger level fieldsRef

/-- Body of `SetDepth` as written (`l.Depth = d`), acting on the copy of
the receiver that Go makes for a value-receiver method. -/
def SetDepthBody (l : logWrapper) (d : Int) : logWrapper :=
  { l with Depth := d }

/-- `SetDepth` as observed by the caller: the method has a value
receiver `(l logWrapper)`, so `l.Depth = d` mutates the method's local
copy of the struct, which is discarded on return — the caller's wrapper
is unchanged. -/
def SetDepth (l : logWrapper) (d : Int) : logWrapper :=
  let _copy := SetDepthBody l d
  l

/-- Merge loop of `AddFields`: `for k, v := range f \x7b l.Context[k] = v \x7d`.
Go map iteration visits each key once; `f` has no duplicate keys. -/
def mergeFields (m : Fields) (f : Fields) : Fields :=
  List.foldl (fun acc kv => Fields.setKey acc kv.1 kv.2) m f

/-- `AddFields(f)`: under the exclusive lock, writes every pair of `f`
into the context map through the facade's stored reference. -/
def AddFields (l : logWrapper) (h : Heap) (f : Fields) : Heap :=
  h.set l.ContextRef (mergeFields (h.get l.ContextRef) f)

/-! Call-site resolution. -/

/-- One stack frame as reported by the runtime: source file path and
line number. -/
abbrev Frame := String × Int

/-- `runtime.Caller(skip)`: the frame `skip` levels up, or
`("", 0, false)` when no such frame exists. -/
def runtimeCaller (stack : List Frame) (skip : Int) : String × Int × Bool :=
  if skip < 0 then ("", 0, false)
  else
    match stack.get? skip.toNat with
    | some fr => (fr.1, fr.2, true)
    | none => ("", 0, false)

/-- Go `strings.Split(s, "/")` on the character list of `s`: cut at every
`'/'`.  Always returns at least one (possibly empty) piece. -/
def splitSlash : List Char → List (List Char)
  | [] => [[]]
  | c :: cs =>
    if c = '/' then [] :: splitSlash cs
    else
      match splitSlash cs with
      | [] => [[c]]
      | t :: ts => (c :: t) :: ts

/-- `strings.Split(filepath, "/")` as a function on `String`. -/
def stringsSplitSlash (s : String) : List String :=
  List.map (fun l => String.mk l) (splitSlash s.data)

/-- `file()`: resolve the caller at the configured depth, keep the last
two `/`-separated path segments (or the single segment if there is only
one), and format `"[segments - line]"`.  The Go indexings
`tokens[len(tokens)-1]` and `tokens[len(tokens)-2]` are rendered with
`getD`; `fileChecked` below shows they are always in bounds. -/
def file (l : logWrapper) (stack : List Frame) : String :=
  let r := runtimeCaller stack l.Depth
  let tokens := stringsSplitSlash r.1
  let fileStr :=
    if tokens.length ≥ 2 then
      tokens.getD (tokens.length - 2) "" ++ "/" ++ tokens.getD (tokens.length - 1) ""
    else
      tokens.getD (tokens.length - 1) ""
  "[" ++ fileStr ++ " - " ++ toString r.2.1 ++ "]"

/-- The same computation with the two Go slice indexings made partial:
a `none` result is exactly an out-of-bounds index, i.e. a Go panic. -/
def fileChecked (l : logWrapper) (stack : List Frame) : Option String :=
  let r := runtimeCaller stack l.Depth
  let tokens := stringsSplitSlash r.1
  match tokens.get? (tokens.length - 1) with
  | none => none
  | some last =>
    if tokens.length ≥ 2 then
      match tokens.get? (tokens.length - 2) with
      | none => none
      | some d => some ("[" ++ d ++ "/" ++ last ++ " - " ++ toString r.2.1 ++ "]")
    else
      some ("[" ++ last ++ " - " ++ toString r.2.1 ++ "]")

/-! Message formatting: a model of `fmt.Sprintf` for the verbs used. -/

/-- Render one argument for a verb, including Go's wrong-type markers. -/
def verbFormat (c : Char) (v : Value) : List Char :=
  match c, v with
  | 'v', Value.str s => s.data
  | 'v', Value.int n => (toString n).data
  | 'd', Value.int n => (toString n).data
  | 'd', Value.str s => ("%!d(string=" ++ s ++ ")").data
  | 's', Value.str s => s.data
  | 's', Value.int n => ("%!s(int=" ++ toString n ++ ")").data
  | c, _ => ['%', c]

/-- Verb-substitution core of the `fmt.Sprintf` model. -/
def sprintfAux : List Char → List Value → List Char
  | [], [] => []
  | [], _ :: _ => "%!(EXTRA)".data
  | '%' :: '%' :: rest, vs => '%' :: sprintfAux rest vs
  | '%' :: c :: rest, [] => ("%!" ++ String.mk [c] ++ "(MISSING)").data ++ sprintfAux rest []
  | '%' :: c :: rest, v :: vs => verbFormat c v ++ sprintfAux rest vs
  | c :: rest, vs => c :: sprintfAux rest vs

/-- `fmt.Sprintf(f, msg...)` for the standard verbs. -/
def sprintf (f : String) (args : List Value) : String :=
  String.mk (sprintfAux f.data args)

/-! The leveled emit methods. -/

/-- One delegation to logrus: severity, final message, and the reference
to the field map handed over (logrus may retain the map, so the record
keeps the reference, not a copy of the contents). -/
structure SinkCall where
  level : Nat
  msg : String
  fieldsRef : Nat
deriving Repr, DecidableEq

/-- `getThreadsafeCopyOfFields()`: allocate a fresh map
(`make(Fields)`) and copy every key/value pair of the context into it
under the read lock; returns the fresh reference. -/
def getThreadsafeCopyOfFields (l : logWrapper) (h : Heap) : Heap × Nat :=
  h.alloc (h.get l.ContextRef)

/-- Common body of `Fatal`/`Warning`/`Info`/`Debug`/`Error` (the five
source bodies are identical up to the severity constant): guard
`if l.Level < methodLevel \x7b return \x7d`, then snapshot, add the
`"file"` entry to the snapshot, and delegate to the Sink. -/
def emitAt (methodLevel : Nat) (l : logWrapper) (h : Heap) (stack : List Frame)
    (f : String) (msg : List Value) : Heap × List SinkCall :=
  if l.Level < methodLevel then (h, [])
  else
    let a := getThreadsafeCopyOfFields l h
    let h1 := a.1
    let fieldsRef := a.2
    let h2 := h1.set fieldsRef (Fields.setKey (h1.get fieldsRef) "file" (Value.str (file l stack)))
    (h2, [⟨methodLevel, sprintf f msg, fieldsRef⟩])

/-- `Fatal(f, msg...)`. -/
def Fatal (l : logWrapper) (h : Heap) (stack : List Frame) (f : String) (msg : List Value) :
    Heap × List SinkCall :=
  emitAt FatalLevel l h stack f msg

/-- `Warning(f, msg...)`. -/
def Warning (l : logWrapper) (h : Heap) (stack : List Frame) (f : String) (msg : List Value) :
    Heap × List SinkCall :=
  emitAt WarnLevel l h stack f msg

/-- `Info(f, msg...)`. -/
def Info (l : logWrapper) (h : Heap) (stack : List Frame) (f : String) (msg : List Value) :
    Heap × List SinkCall :=
  emitAt InfoLevel l h stack f msg

/-- `Debug(f, msg...)`. -/
def Debug (l : logWrapper) (h : Heap) (stack : List Frame) (f : String) (msg : List Value) :
    Heap × List SinkCall :=
  emitAt DebugLevel l h stack f msg

/-- `Error(f, msg...)`. -/
def Error (l : logWrapper) (h : Heap) (stack : List Frame) (f : String) (msg : List Value) :
    Heap × List SinkCall :=
  emitAt ErrorLevel l h stack f msg

/-! Traces of facade operations, to state that a field map already
delivered to the Sink is never changed by later calls. -/

/-- One public operation on a facade. -/
inductive Op where
  | addFields (f : Fields)
  | emit (methodLevel : Nat) (stack : List Frame) (tmpl : String) (args : List Value)
  | setDepth (d : Int)

/-- Effect of one operation on the heap, with the sink calls it makes.
`setDepth` leaves the heap alone and (value receiver) the wrapper too. -/
def applyOp (l : logWrapper) (h : Heap) : Op → Heap × List SinkCall
  | Op.addFields f => (AddFields l h f, [])
  | Op.emit ml stack tmpl args => emitAt ml l h stack tmpl args
  | Op.setDepth d => (let _l2 := SetDepth l d; (h, []))

/-- Run a sequence of operations on one facade (all methods have value
receivers, so the wrapper itself never changes). -/
def run (l : logWrapper) (h : Heap) : List Op → Heap × List SinkCall
  | [] => (h, [])
  | op :: ops =>
    let s1 := applyOp l h op
    let s2 := run l s1.1 ops
    (s2.1, s1.2 ++ s2.2)

/-! Helper lemmas: Go map get/set, the heap, and the merge loop. -/

theorem Fields.find?_map_overwrite (m : Fields) (k : String) (v : Value)
    (h : List.any m (fun kv => kv.1 = k) = true) :
    List.find? (fun kv => kv.1 = k)
      (List.map (fun kv => if kv.1 = k then (k, v) else kv) m) = some (k, v) := by
  induction m with
  | nil => simp at h
  | cons kv tl ih =>
    by_cases hk : kv.1 = k
    · rw [List.map_cons, if_pos hk]
      exact List.find?_cons_of_pos _ (by simp)
    · rw [List.map_cons, if_neg hk, List.find?_cons_of_neg _ (by simp [hk])]
      apply ih
      simp only [List.any_cons, Bool.or_eq_true, decide_eq_true_eq] at h
      rcases h with h | h
      · exact absurd h hk
      · exact h

theorem Fields.find?_map_ne (m : Fields) (k k' : String) (v : Value) (hne : k' ≠ k) :
    List.find? (fun kv => kv.1 = k')
      (List.map (fun kv => if kv.1 = k then (k, v) else kv) m)
      = List.find? (fun kv => kv.1 = k') m := by
  induction m with
  | nil => rfl
  | cons kv tl ih =>
    by_cases hk : kv.1 = k
    · have h1 : ¬ ((k, v).1 = k') := fun hkk => hne hkk.symm
      have h2 : ¬ (kv.1 = k') := by rw [hk]; exact fun hkk => hne hkk.symm
      rw [List.map_cons, if_pos hk, List.find?_cons_of_neg _ (by simp [h1]),
        List.find?_cons_of_neg _ (by simp [h2])]
      exact ih
    · rw [List.map_cons, if_neg hk]
      by_cases hkk : kv.1 = k'
      · rw [List.find?_cons_of_pos _ (by simp [hkk]), List.find?_cons_of_pos _ (by simp [hkk])]
      · rw [List.find?_cons_of_neg _ (by simp [hkk]), List.find?_cons_of_neg _ (by simp [hkk])]
        exact ih

theorem Fields.getKey_setKey_self (m : Fields) (k : String) (v : Value) :
    Fields.getKey (Fields.setKey m k v) k = some v := by
  unfold Fields.setKey Fields.getKey
  by_cases h : List.any m (fun kv => kv.1 = k) = true
  · rw [if_pos h, Fields.find?_map_overwrite m k v h]
    rfl
  · rw [if_neg h]
    have hnone : List.find? (fun kv => kv.1 = k) m = none := by
      rw [List.find?_eq_none]
      intro x hx hpx
      exact h (List.any_eq_true.mpr ⟨x, hx, hpx⟩)
    rw [List.append_eq, List.find?_append, hnone]
    simp [List.find?_cons_of_pos]

theorem Fields.getKey_setKey_ne (m : Fields) (k k' : String) (v : Value) (hne : k' ≠ k) :
    Fields.getKey (Fields.setKey m k v) k' = Fields.getKey m k' := by
  unfold Fields.setKey Fields.getKey
  by_cases h : List.any m (fun kv => kv.1 = k) = true
  · rw [if_pos h, Fields.find?_map_ne m k k' v hne]
  · rw [if_neg h, List.append_eq, List.find?_append]
    have hlast : List.find? (fun kv => kv.1 = k') [(k, v)] = none := by
      have : ¬ ((k, v).1 = k') := fun hkk => hne hkk.symm
      rw [List.find?_cons_of_neg _ (by simp [this])]
      rfl
    rw [hlast]
    cases hfind : List.find? (fun kv => kv.1 = k') m <;> simp [hfind, Option.orElse]

theorem Heap.get_set_self (h : Heap) (r : Nat) (f : Fields) : (h.set r f).get r = f := by
  simp [Heap.get, Heap.set]

theorem Heap.get_set_ne (h : Heap) {r r' : Nat} (f : Fields) (hne : r' ≠ r) :
    (h.set r f).get r' = h.get r' := by
  simp [Heap.get, Heap.set, hne]

theorem Heap.get_alloc_of_ne (h : Heap) (f : Fields) {r : Nat} (hr : r ≠ h.next) :
    (h.alloc f).1.get r = h.get r := by
  simp [Heap.get, Heap.alloc, hr]

theorem Heap.get_alloc_self (h : Heap) (f : Fields) :
    (h.alloc f).1.get (h.alloc f).2 = f := by
  simp [Heap.get, Heap.alloc]

theorem Heap.get_alloc_next (h : Heap) (f : Fields) :
    (h.alloc f).1.get h.next = f := by
  simp [Heap.get, Heap.alloc]

theorem Heap.next_alloc (h : Heap) (f : Fields) : (h.alloc f).1.next = h.next + 1 := rfl

theorem Heap.next_set (h : Heap) (r : Nat) (f : Fields) : (h.set r f).next = h.next := rfl

theorem getKey_mergeFields_of_not_mem (f m : Fields) (k : String)
    (hk : k ∉ Fields.keys f) :
    Fields.getKey (mergeFields m f) k = Fields.getKey m k := by
  induction f generalizing m with
  | nil => rfl
  | cons kv tl ih =>
    simp only [Fields.keys, List.map_cons, List.mem_cons, not_or] at hk
    have hstep : mergeFields m (kv :: tl) = mergeFields (Fields.setKey m kv.1 kv.2) tl := rfl
    rw [hstep, ih _ (by simpa [Fields.keys] using hk.2),
      Fields.getKey_setKey_ne _ _ _ _ hk.1]

theorem getKey_mergeFields_of_mem (f m : Fields) (k : String) (v : Value)
    (hmem : (k, v) ∈ f) (hnd : (Fields.keys f).Nodup) :
    Fields.getKey (mergeFields m f) k = some v := by
  induction f generalizing m with
  | nil => cases hmem
  | cons kv tl ih =>
    have hstep : mergeFields m (kv :: tl) = mergeFields (Fields.setKey m kv.1 kv.2) tl := rfl
    rcases List.mem_cons.mp hmem with heq | htl
    · subst heq
      have hnotin : k ∉ Fields.keys tl := by
        simpa [Fields.keys] using (List.nodup_cons.mp hnd).1
      rw [hstep, getKey_mergeFields_of_not_mem _ _ _ hnotin, Fields.getKey_setKey_self]
    · rw [hstep]
      exact ih _ htl (List.nodup_cons.mp hnd).2

theorem splitSlash_ne_nil (cs : List Char) : splitSlash cs ≠ [] := by
  cases cs with
  | nil => simp [splitSlash]
  | cons c cs =>
    unfold splitSlash
    by_cases hc : c = '/'
    · simp [hc]
    · rw [if_neg hc]
      cases hrec : splitSlash cs <;> simp

theorem stringsSplitSlash_ne_nil (s : String) : stringsSplitSlash s ≠ [] := by
  unfold stringsSplitSlash
  intro hmap
  exact splitSlash_ne_nil s.data (List.map_eq_nil_iff.mp hmap)

theorem get?_getD_of_lt (l : List String) (n : Nat) (hn : n < l.length) :
    l.get? n = some (l.getD n "") := by
  rw [List.getD_eq_getElem?_getD, List.get?_eq_getElem?, List.getElem?_eq_getElem hn]
  rfl

theorem applyOp_preserves (l : logWrapper) (h : Heap) (op : Op) {r : Nat}
    (hne : r ≠ l.ContextRef) (hr : r < h.next) :
    (applyOp l h op).1.get r = h.get r ∧ r < (applyOp l h op).1.next := by
  cases op with
  | addFields f =>
    exact ⟨Heap.get_set_ne _ _ hne, by rw [applyOp, AddFields, Heap.next_set]; exact hr⟩
  | setDepth d => exact ⟨rfl, hr⟩
  | emit ml stack tmpl args =>
    show (emitAt ml l h stack tmpl args).1.get r = h.get r ∧
      r < (emitAt ml l h stack tmpl args).1.next
    unfold emitAt
    by_cases hml : l.Level < ml
    · rw [if_pos hml]
      exact ⟨rfl, hr⟩
    · rw [if_neg hml]
      have hrn : r ≠ h.next := Nat.ne_of_lt hr
      constructor
      · show ((h.alloc _).1.set h.next _).get r = h.get r
        rw [Heap.get_set_ne _ _ hrn, Heap.get_alloc_of_ne _ _ hrn]
      · show r < ((h.alloc _).1.set h.next _).next
        rw [Heap.next_set, Heap.next_alloc]
        exact Nat.lt_succ_of_lt hr

theorem run_preserves (l : logWrapper) (ops : List Op) (h : Heap) {r : Nat}
    (hne : r ≠ l.ContextRef) (hr : r < h.next) :
    (run l h ops).1.get r = h.get r ∧ r < (run l h ops).1.next := by
  induction ops generalizing h with
  | nil => exact ⟨rfl, hr⟩
  | cons op ops ih =>
    have h1 := applyOp_preserves l h op hne hr
    have h2 := ih (applyOp l h op).1 h1.2
    exact ⟨h2.1.trans h1.1, h2.2⟩

/-! The claims. -/

/-- C1: for every facade and every leveled emit method (`Fatal`, `Error`,
`Warning`, `Info`, `Debug`) whose severity is strictly below the facade's
configured minimum severity (in logrus numbering: `l.Level < methodLevel`),
invoking the method with any template and arguments produces zero Sink
calls and returns the heap unchanged — so no context snapshot is
allocated, no `"file"` entry is resolved, and the facade's context map is
left unmodified. -/
theorem c1_suppressed_emit_is_noop (l : logWrapper) (h : Heap) (stack : List Frame)
    (t : String) (args : List Value) :
    (l.Level < FatalLevel → Fatal l h stack t args = (h, [])) ∧
    (l.Level < ErrorLevel → Error l h stack t args = (h, [])) ∧
    (l.Level < WarnLevel → Warning l h stack t args = (h, [])) ∧
    (l.Level < InfoLevel → Info l h stack t args = (h, [])) ∧
    (l.Level < DebugLevel → Debug l h stack t args = (h, [])) := by
  refine ⟨?_, ?_, ?_, ?_, ?_⟩ <;> intro hlt <;>
    simp [Fatal, Error, Warning, Info, Debug, emitAt, hlt]

/-- C1 witness: a facade at minimum severity `"warning"` discards a
`Debug` call without touching the heap. -/
theorem c1_suppressed_emit_is_noop_witness :
    Debug (newLogger "warning" 0) Heap.empty [] "x=%d" [Value.int 5] = (Heap.empty, []) :=
  (c1_suppressed_emit_is_noop (newLogger "warning" 0) Heap.empty [] "x=%d"
    [Value.int 5]).2.2.2.2 (by decide)

/-- C2: for every facade and every leveled emit method whose severity is
at least the configured minimum (each of `Fatal`/`Error`/`Warning`/
`Info`/`Debug` is `emitAt` at its severity constant), invoking it with
template `t` and arguments `args` produces exactly one Sink call whose
message is `t` formatted with `args` by standard verb substitution, and
whose field map holds every key of the facade's context at call time
(with its context value, for keys other than `"file"`) plus the `"file"`
key. -/
theorem c2_enabled_emit_delivers_once (ml : Nat) (l : logWrapper) (h : Heap)
    (stack : List Frame) (t : String) (args : List Value) (hml : ml ≤ l.Level) :
    ∃ h' c, emitAt ml l h stack t args = (h', [c]) ∧
      c.level = ml ∧
      c.msg = sprintf t args ∧
      Fields.getKey (h'.get c.fieldsRef) "file" = some (Value.str (file l stack)) ∧
      (∀ k, k ≠ "file" →
        Fields.getKey (h'.get c.fieldsRef) k = Fields.getKey (h.get l.ContextRef) k) := by
  have hnot : ¬ l.Level < ml := not_lt.mpr hml
  have heq : emitAt ml l h stack t args
      = ((h.alloc (h.get l.ContextRef)).1.set h.next
           (Fields.setKey ((h.alloc (h.get l.ContextRef)).1.get h.next) "file"
             (Value.str (file l stack))),
         [⟨ml, sprintf t args, h.next⟩]) := by
    unfold emitAt getThreadsafeCopyOfFields
    rw [if_neg hnot]
    rfl
  refine ⟨_, _, heq, rfl, rfl, ?_, ?_⟩
  · rw [Heap.get_set_self]
    exact Fields.getKey_setKey_self _ _ _
  · intro k hk
    rw [Heap.get_set_self, Fields.getKey_setKey_ne _ _ _ _ hk, Heap.get_alloc_next]

/-- C2 witness: the spec's example scenario — a `"warning"` facade's
`Warning("y=%d", 7)` delivers exactly one Sink call with message
`"y=7"` and a `"file"` field resolved at depth 2. -/
theorem c2_enabled_emit_delivers_once_witness :
    ∃ h' c,
      emitAt WarnLevel (newLogger "warning" 0) Heap.empty
        [("a/f0.go", 10), ("a/f1.go", 11), ("m/n.go", 3)] "y=%d" [Value.int 7] = (h', [c]) ∧
      c.level = WarnLevel ∧ c.msg = "y=7" ∧
      Fields.getKey (h'.get c.fieldsRef) "file" = some (Value.str "[m/n.go - 3]") := by
  obtain ⟨h', c, heq, hlev, hmsg, hfile, hrest⟩ :=
    c2_enabled_emit_delivers_once WarnLevel (newLogger "warning" 0) Heap.empty
      [("a/f0.go", 10), ("a/f1.go", 11), ("m/n.go", 3)] "y=%d" [Value.int 7] (by decide)
  refine ⟨h', c, heq, hlev, ?_, ?_⟩
  · rw [hmsg]; decide
  · rw [hfile]; decide

/-- C3 counterexample: the claim says the level string `"error"` selects
minimum severity Error, but `newLogger`'s switch has no `"error"` case,
so `"error"` falls through to the Info default. -/
theorem c3_error_level_counterexample :
    (newLogger "error" 0).Level = InfoLevel ∧ (newLogger "error" 0).Level ≠ ErrorLevel := by
  decide

/-- C3 amended: `"debug"` selects Debug, `"info"` selects Info,
`"warning"` selects Warning, and every other string — including
`"error"` — defaults the minimum severity to Info. -/
theorem c3_level_parsing_amended (s : String) (fRef : Nat) :
    (s = "debug" → (newLogger s fRef).Level = DebugLevel) ∧
    (s = "info" → (newLogger s fRef).Level = InfoLevel) ∧
    (s = "warning" → (newLogger s fRef).Level = WarnLevel) ∧
    (s ≠ "debug" → s ≠ "info" → s ≠ "warning" → (newLogger s fRef).Level = InfoLevel) := by
  refine ⟨?_, ?_, ?_, ?_⟩
  · rintro rfl; rfl
  · rintro rfl; rfl
  · rintro rfl; rfl
  · intro h1 h2 h3
    show parseLevel s = InfoLevel
    unfold parseLevel
    split <;> simp_all

/-- C3 witness: the default branch of the amended claim applied at the
concrete string `"error"`. -/
theorem c3_level_parsing_amended_witness : (newLogger "error" 7).Level = InfoLevel :=
  (c3_level_parsing_amended "error" 7).2.2.2 (by decide) (by decide) (by decide)

/-- C4: `SetDepth` is declared on a value receiver `(l logWrapper)`, so
`l.Depth = d` writes to the method's local copy of the struct and the
caller's facade keeps depth 2: here `SetDepth(7)` leaves the wrapper
unchanged (while the method body's local copy did get depth 7), and a
subsequent call-site resolution still unwinds 2 frames, not 7. -/
theorem c4_setdepth_discarded_on_value_receiver :
    SetDepth (WithFields "info" 0) 7 = WithFields "info" 0 ∧
    (SetDepth (WithFields "info" 0) 7).Depth = 2 ∧
    (SetDepthBody (WithFields "info" 0) 7).Depth = 7 ∧
    file (SetDepth (WithFields "info" 0) 7)
      [("a/f0.go", 10), ("a/f1.go", 11), ("a/f2.go", 12), ("a/f3.go", 13),
       ("a/f4.go", 14), ("a/f5.go", 15), ("a/f6.go", 16), ("a/f7.go", 17)]
      = "[a/f2.go - 12]" := by
  decide

/-- C5 counterexample: `WithFields` stores the caller's map reference
directly (`Context: f`, no copy), so a later `AddFields` on the facade
mutates the caller's map: with the caller's (empty) map at reference 0,
`AddFields` through the facade changes the map at reference 0. -/
theorem c5_withfields_aliases_counterexample :
    (AddFields (WithFields "info" 0) ⟨fun _ => [], 1⟩ [("a", Value.int 1)]).get 0 ≠
      Heap.get ⟨fun _ => [], 1⟩ 0 := by
  decide

/-- C5 amended: `WithFields(level, m)` stores the caller's map `m`
itself as the facade's context (the context reference is the argument
reference), so `AddFields` writes through the caller's map and caller
mutations of `m` are the facade's context. -/
theorem c5_withfields_stores_reference_amended (lvl : String) (r : Nat) (h : Heap)
    (f : Fields) :
    (WithFields lvl r).ContextRef = r ∧
    AddFields (WithFields lvl r) h f = h.set r (mergeFields (h.get r) f) :=
  ⟨rfl, rfl⟩

/-- C6: `AddFields(f)` merges every pair of `f` into the facade's
context, keys of `f` overwriting same-named context keys, and keys not
in `f` unchanged (for a Go map argument `f`, i.e. one without duplicate
keys). -/
theorem c6_addfields_merges_with_overwrite (l : logWrapper) (h : Heap) (f : Fields)
    (hnd : (Fields.keys f).Nodup) :
    (∀ k v, (k, v) ∈ f →
      Fields.getKey ((AddFields l h f).get l.ContextRef) k = some v) ∧
    (∀ k, k ∉ Fields.keys f →
      Fields.getKey ((AddFields l h f).get l.ContextRef) k
        = Fields.getKey (h.get l.ContextRef) k) := by
  constructor
  · intro k v hmem
    rw [AddFields, Heap.get_set_self]
    exact getKey_mergeFields_of_mem f _ k v hmem hnd
  · intro k hk
    rw [AddFields, Heap.get_set_self]
    exact getKey_mergeFields_of_not_mem f _ k hk

/-- C6 witness: `AddFields(\x7b"a":1\x7d)` then `AddFields(\x7b"a":2\x7d)`
leaves the context with `"a"` mapped to 2. -/
theorem c6_addfields_merges_with_overwrite_witness :
    Fields.getKey ((AddFields (WithFields "info" 0)
        (AddFields (WithFields "info" 0) ⟨fun _ => [], 1⟩ [("a", Value.int 1)])
        [("a", Value.int 2)]).get 0) "a" = some (Value.int 2) :=
  (c6_addfields_merges_with_overwrite (WithFields "info" 0)
      (AddFields (WithFields "info" 0) ⟨fun _ => [], 1⟩ [("a", Value.int 1)])
      [("a", Value.int 2)] (by decide)).1 "a" (Value.int 2) (by decide)

/-- C7: every emit that reaches the Sink hands over a newly allocated
copy of the context: the delivered map is a fresh reference distinct
from the context reference, its pairs equal the facade's context at
snapshot time (the `"file"` entry exists only in the copy), the emit
leaves the context map unchanged, and no later sequence of operations
on the facade (`AddFields`, further emits, `SetDepth`) changes the map
already delivered. -/
theorem c7_delivered_map_is_independent_copy (ml : Nat) (l : logWrapper) (h : Heap)
    (stack : List Frame) (t : String) (args : List Value) (ops : List Op)
    (hml : ml ≤ l.Level) (hctx : l.ContextRef < h.next) :
    ∃ h' c, emitAt ml l h stack t args = (h', [c]) ∧
      c.fieldsRef ≠ l.ContextRef ∧
      h'.get l.ContextRef = h.get l.ContextRef ∧
      (∀ k, k ≠ "file" →
        Fields.getKey (h'.get c.fieldsRef) k = Fields.getKey (h.get l.ContextRef) k) ∧
      Fields.getKey (h'.get c.fieldsRef) "file" = some (Value.str (file l stack)) ∧
      (run l h' ops).1.get c.fieldsRef = h'.get c.fieldsRef := by
  have hnot : ¬ l.Level < ml := not_lt.mpr hml
  have hcn : l.ContextRef ≠ h.next := Nat.ne_of_lt hctx
  have heq : emitAt ml l h stack t args
      = ((h.alloc (h.get l.ContextRef)).1.set h.next
           (Fields.setKey ((h.alloc (h.get l.ContextRef)).1.get h.next) "file"
             (Value.str (file l stack))),
         [⟨ml, sprintf t args, h.next⟩]) := by
    unfold emitAt getThreadsafeCopyOfFields
    rw [if_neg hnot]
    rfl
  refine ⟨_, _, heq, fun hrc => hcn hrc.symm, ?_, ?_, ?_, ?_⟩
  · rw [Heap.get_set_ne _ _ hcn, Heap.get_alloc_of_ne _ _ hcn]
  · intro k hk
    rw [Heap.get_set_self, Fields.getKey_setKey_ne _ _ _ _ hk, Heap.get_alloc_next]
  · rw [Heap.get_set_self]
    exact Fields.getKey_setKey_self _ _ _
  · refine (run_preserves l ops _ (fun hrc => hcn hrc.symm) ?_).1
    rw [Heap.next_set, Heap.next_alloc]
    exact Nat.lt_succ_self _

/-- C7 witness: an `Info` emit on an `"info"` facade, followed by an
`AddFields` on the same facade, leaves the delivered field map intact. -/
theorem c7_delivered_map_is_independent_copy_witness :
    ∃ h' c, emitAt InfoLevel (WithFields "info" 0) ⟨fun _ => [], 1⟩
        [("a/f0.go", 10), ("a/f1.go", 11), ("m/n.go", 3)] "ready" [] = (h', [c]) ∧
      c.fieldsRef ≠ (WithFields "info" 0).ContextRef ∧
      h'.get (WithFields "info" 0).ContextRef
        = Heap.get ⟨fun _ => [], 1⟩ (WithFields "info" 0).ContextRef ∧
      (∀ k, k ≠ "file" →
        Fields.getKey (h'.get c.fieldsRef) k
          = Fields.getKey (Heap.get ⟨fun _ => [], 1⟩ (WithFields "info" 0).ContextRef) k) ∧
      Fields.getKey (h'.get c.fieldsRef) "file"
        = some (Value.str (file (WithFields "info" 0)
            [("a/f0.go", 10), ("a/f1.go", 11), ("m/n.go", 3)])) ∧
      (run (WithFields "info" 0) h' [Op.addFields [("b", Value.int 9)]]).1.get c.fieldsRef
        = h'.get c.fieldsRef :=
  c7_delivered_map_is_independent_copy InfoLevel (WithFields "info" 0) ⟨fun _ => [], 1⟩
    [("a/f0.go", 10), ("a/f1.go", 11), ("m/n.go", 3)] "ready" []
    [Op.addFields [("b", Value.int 9)]] (by decide) (by decide)

/-- C8: when the resolved caller's file path splits on `/` into at least
two segments, `file()` returns `"[dir/file - line]"` with `dir` the
immediate parent directory (second-to-last segment), `file` the base
name (last segment), and `line` the caller's line number. -/
theorem c8_file_returns_two_segment_identifier (l : logWrapper) (stack : List Frame)
    (fp : String) (ln : Int) (ts : List String) (dir base : String)
    (hd : 0 ≤ l.Depth) (hfr : stack.get? l.Depth.toNat = some (fp, ln))
    (hsplit : stringsSplitSlash fp = ts ++ [dir, base]) :
    file l stack = "[" ++ dir ++ "/" ++ base ++ " - " ++ toString ln ++ "]" := by
  have hrc : runtimeCaller stack l.Depth = (fp, ln, true) := by
    unfold runtimeCaller
    rw [if_neg (not_lt.mpr hd), hfr]
  unfold file
  rw [hrc]
  simp only [hsplit]
  have hlen : (ts ++ [dir, base]).length = ts.length + 2 := by simp
  rw [if_pos (by rw [hlen]; omega)]
  have h1 : (ts ++ [dir, base]).getD ((ts ++ [dir, base]).length - 2) "" = dir := by
    rw [hlen, Nat.add_sub_cancel, List.getD_eq_getElem?_getD,
      List.getElem?_append_right (Nat.le_refl _)]
    simp
  have h2 : (ts ++ [dir, base]).getD ((ts ++ [dir, base]).length - 1) "" = base := by
    rw [hlen, show ts.length + 2 - 1 = ts.length + 1 from rfl, List.getD_eq_getElem?_getD,
      List.getElem?_append_right (Nat.le_add_right _ _)]
    simp
  rw [h1, h2]
  simp [String.append_assoc]

/-- C8 witness: a caller at `/home/u/proj/main.go:42` resolves to
`"[proj/main.go - 42]"`. -/
theorem c8_file_returns_two_segment_identifier_witness :
    file (newLogger "info" 0)
      [("a/f0.go", 10), ("a/f1.go", 11), ("/home/u/proj/main.go", 42)]
      = "[proj/main.go - 42]" := by
  have h := c8_file_returns_two_segment_identifier (newLogger "info" 0)
    [("a/f0.go", 10), ("a/f1.go", 11), ("/home/u/proj/main.go", 42)]
    "/home/u/proj/main.go" 42 ["", "home", "u"] "proj" "main.go"
    (by decide) (by decide) (by decide)
  rw [h]
  decide

/-- C9: call-site resolution never panics: both Go slice indexings in
`file()` are always in bounds (`fileChecked`, the partial rendering of
the indexing, always returns `some`, and agrees with `file`), and when
stack introspection fails — depth negative or beyond the real stack, so
the runtime reports an empty path and line 0 — `file()` returns the
placeholder `"[ - 0]"`. -/
theorem c9_file_never_panics (l : logWrapper) (stack : List Frame) :
    fileChecked l stack = some (file l stack) ∧
    ((runtimeCaller stack l.Depth).2.2 = false → file l stack = "[ - 0]") := by
  constructor
  · unfold fileChecked file
    dsimp only
    have hne := stringsSplitSlash_ne_nil (runtimeCaller stack l.Depth).1
    have hpos : 0 < (stringsSplitSlash (runtimeCaller stack l.Depth).1).length :=
      List.length_pos.mpr hne
    have hlast := get?_getD_of_lt (stringsSplitSlash (runtimeCaller stack l.Depth).1)
      ((stringsSplitSlash (runtimeCaller stack l.Depth).1).length - 1) (by omega)
    rw [hlast]
    dsimp only
    by_cases h2 : (stringsSplitSlash (runtimeCaller stack l.Depth).1).length ≥ 2
    · have hsnd := get?_getD_of_lt (stringsSplitSlash (runtimeCaller stack l.Depth).1)
        ((stringsSplitSlash (runtimeCaller stack l.Depth).1).length - 2) (by omega)
      rw [if_pos h2, hsnd]
      dsimp only
      rw [if_pos h2]
      simp [String.append_assoc]
    · rw [if_neg h2, if_neg h2]
  · intro hfail
    have hrc : runtimeCaller stack l.Depth = ("", 0, false) := by
      unfold runtimeCaller at hfail ⊢
      by_cases hneg : l.Depth < 0
      · rw [if_pos hneg]
      · rw [if_neg hneg] at hfail ⊢
        cases hget : stack.get? l.Depth.toNat with
        | none => rfl
        | some fr => rw [hget] at hfail; simp at hfail
    unfold file
    rw [hrc]
    decide

/-- C9 witness: with an empty stack (so resolution fails at depth 2),
`file()` still returns a value — the placeholder `"[ - 0]"`. -/
theorem c9_file_never_panics_witness :
    fileChecked (newLogger "info" 0) [] = some (file (newLogger "info" 0) []) ∧
    file (newLogger "info" 0) [] = "[ - 0]" := by
  have h := c9_file_never_panics (newLogger "info" 0) []
  exact ⟨h.1, h.2 (by decide)⟩

/-- C10: every facade built by `New` or `WithFields` (both delegate to
`newLogger`) has a minimum severity no stricter than Warning — the
parsed level is always at least `WarnLevel` in logrus numbering — so
`Fatal`, `Error` and `Warning` are never suppressed by the severity
guard: each always produces exactly one Sink call. -/
theorem c10_fatal_error_warning_never_suppressed (lvl : String) (fRef : Nat) (h : Heap)
    (stack : List Frame) (t : String) (args : List Value) :
    WarnLevel ≤ (newLogger lvl fRef).Level ∧
    WithFields lvl fRef = newLogger lvl fRef ∧
    (New lvl h).2 = newLogger lvl h.next ∧
    (Fatal (newLogger lvl fRef) h stack t args).2.length = 1 ∧
    (Error (newLogger lvl fRef) h stack t args).2.length = 1 ∧
    (Warning (newLogger lvl fRef) h stack t args).2.length = 1 := by
  have hw : WarnLevel ≤ parseLevel lvl := by
    unfold parseLevel
    split <;> decide
  have hwn : WarnLevel ≤ (newLogger lvl fRef).Level := hw
  refine ⟨hwn, rfl, rfl, ?_, ?_, ?_⟩
  · rw [Fatal, emitAt, if_neg (by
      show ¬ (newLogger lvl fRef).Level < FatalLevel
      have : (3 : Nat) ≤ (newLogger lvl fRef).Level := hwn
      unfold FatalLevel
      omega)]
    rfl
  · rw [Error, emitAt, if_neg (by
      show ¬ (newLogger lvl fRef).Level < ErrorLevel
      have : (3 : Nat) ≤ (newLogger lvl fRef).Level := hwn
      unfold ErrorLevel
      omega)]
    rfl
  · rw [Warning, emitAt, if_neg (by
      show ¬ (newLogger lvl fRef).Level < WarnLevel
      exact not_lt.mpr hwn)]
    rfl

end LoggerGo
